import Mathlib

/-!
Shallow embedding of the ai-student-partner backend's mastery/progress and
recommendation engine (src/backend/routes/progress.js,
src/backend/routes/recommendations.js, and the mongoose schemas), together
with proofs about the claims of the specification.

Conventions of the embedding:
* JS numbers that hold exact quantities (mastery, alpha, scores) become `ℚ`.
* Timestamps are rationals measured in days; `setHours(0,0,0,0)` (midnight
  normalisation) becomes `Int.floor`.
* Mongoose documents become structures; the three collections touched by the
  submit-answer route become the `DB` record.
* Each `await`ed storage call can fail (StorageError); a `FailSchedule`
  records which call throws.  The route's try/catch translates to returning
  `SubmitResult.serverError` with the database as accumulated so far.
-/

namespace ASP

/-! ### JS string primitives used by the routes -/

/-- `String.prototype.toUpperCase` restricted to the ASCII range used by the
question bank (`Char.toUpper` upcases exactly ASCII letters). -/
def jsToUpper (s : String) : String := ⟨s.data.map Char.toUpper⟩

/-- Worker for `String.prototype.split` with a non-empty separator: fuel-based
so that it is structural and kernel-reducible.  `acc` is the current chunk,
reversed. -/
def splitSepAux (sep : List Char) : Nat → List Char → List Char → List (List Char)
  | 0, acc, cs => [acc.reverse ++ cs]
  | fuel + 1, acc, cs =>
    if sep.isPrefixOf cs then
      acc.reverse :: splitSepAux sep fuel [] (cs.drop sep.length)
    else
      match cs with
      | [] => [acc.reverse]
      | c :: rest => splitSepAux sep fuel (c :: acc) rest

/-- `s.split(sep)` for a non-empty separator, as used by
`questionId.split('_Q')` in the submit-answer route. -/
def jsSplit (s sep : String) : List String :=
  (splitSepAux sep.data (s.data.length + 1) [] s.data).map List.asString

/-- The ECMAScript WhiteSpace and LineTerminator code points that
`parseInt` strips from the front of its argument. -/
def jsIsWhitespace (c : Char) : Bool :=
  c = ' ' || c = '\t' || c = '\n' || c = '\x0b' || c = '\x0c' || c = '\r'
    || c = '\xa0' || c = '\u1680'
    || ('\u2000' ≤ c && c ≤ '\u200a')
    || c = '\u2028' || c = '\u2029' || c = '\u202f' || c = '\u205f'
    || c = '\u3000' || c = '\ufeff'

/-- Numeric value of the longest decimal-digit run at the head of `cs`,
accumulated into `n`; stops at the first non-digit, as `parseInt` does. -/
def readDigits : List Char → Nat → Nat
  | [], n => n
  | c :: cs, n => if c.isDigit then readDigits cs (n * 10 + (c.toNat - 48)) else n

/-- `none` when `cs` does not start with a decimal digit (`parseInt` yields
`NaN`). -/
def parseDigits (cs : List Char) : Option Int :=
  match cs with
  | [] => none
  | c :: _ => if c.isDigit then some (readDigits cs 0 : Nat) else none

/-- Hexadecimal digits, as accepted by `parseInt` with radix 16. -/
def isHexDigit (c : Char) : Bool :=
  c.isDigit || ('a' ≤ c && c ≤ 'f') || ('A' ≤ c && c ≤ 'F')

def hexVal (c : Char) : Nat :=
  if c.isDigit then c.toNat - 48
  else if 'a' ≤ c && c ≤ 'f' then c.toNat - 87
  else c.toNat - 55

/-- Numeric value of the longest hex-digit run at the head of `cs`,
accumulated into `n`. -/
def readHexDigits : List Char → Nat → Nat
  | [], n => n
  | c :: cs, n => if isHexDigit c then readHexDigits cs (n * 16 + hexVal c) else n

/-- `none` when `cs` does not start with a hex digit (an empty digit run
after the `0x` prefix is `NaN`). -/
def parseHexDigits (cs : List Char) : Option Int :=
  match cs with
  | [] => none
  | c :: _ => if isHexDigit c then some (readHexDigits cs 0 : Nat) else none

/-- The unsigned part of `parseInt` with no radix argument: a `0x`/`0X`
prefix selects radix 16 (ECMAScript auto-detection), otherwise radix 10. -/
def parseUnsigned (cs : List Char) : Option Int :=
  match cs with
  | '0' :: 'x' :: rest => parseHexDigits rest
  | '0' :: 'X' :: rest => parseHexDigits rest
  | _ => parseDigits cs

/-- `parseInt(s)` with no radix argument: strip leading ECMAScript
whitespace, optional sign, then the longest run of digits of the detected
radix (16 after a `0x`/`0X` prefix, else 10); `none` models `NaN`. -/
def jsParseInt (s : String) : Option Int :=
  match s.data.dropWhile jsIsWhitespace with
  | '-' :: rest => (parseUnsigned rest).map (fun n => -n)
  | '+' :: rest => parseUnsigned rest
  | cs => parseUnsigned cs

/-! ### Question bank (data/subjects.json) -/

structure Question where
  answer : String
  deriving DecidableEq, Repr

structure Topic where
  topic_id : String
  title : String
  questions : List Question
  deriving DecidableEq, Repr

structure Subject where
  subject_name : String
  topics : List Topic
  deriving DecidableEq, Repr

/-- The route's `for (const subject of data.subjects)` loop with
`subject.topics.find(...)` and `break`: the first subject containing a topic
with the given id wins. -/
def findTopic (subjects : List Subject) (topicId : String) :
    Option (Subject × Topic) :=
  match subjects with
  | [] => none
  | s :: rest =>
    match s.topics.find? (fun t => t.topic_id == topicId) with
    | some t => some (s, t)
    | none => findTopic rest topicId

/-- `topic.questions[parseInt(questionId.split('_Q')[1]) - 1]?.answer`:
`none` models both a `NaN` parse and an out-of-range (incl. negative) index,
where a JS index read yields `undefined`. -/
def questionAnswer (top : Topic) (questionId : String) : Option String :=
  match jsParseInt (((jsSplit questionId "_Q").get? 1).getD "") with
  | none => none
  | some i =>
    if i - 1 < 0 then none
    else (top.questions.get? (i - 1).toNat).map (·.answer)

/-- `const isCorrect = userAnswer.toUpperCase() === correctAnswer.toUpperCase()`.
Note: the route compares the raw strings uppercased; it does not trim
whitespace. -/
def decideCorrect (userAnswer correctAnswer : String) : Bool :=
  jsToUpper userAnswer == jsToUpper correctAnswer

/-! ### Stored documents (mongoose schemas) -/

structure AttemptRec where
  userId : String
  topicId : String
  questionId : String
  userAnswer : String
  correctAnswer : String
  isCorrect : Bool
  timeTaken : Option ℚ
  timestamp : ℚ
  deriving DecidableEq, Repr

structure ProgressRec where
  userId : String
  topicId : String
  subjectName : String
  topicTitle : String
  mastery : ℚ
  attempts : Nat
  corrects : Nat
  lastReview : Option ℚ
  emaAlpha : ℚ
  deriving DecidableEq, Repr

structure UserStats where
  totalAttempts : Nat
  totalCorrect : Nat
  currentStreak : Nat
  longestStreak : Nat
  lastStudyDate : Option ℚ
  deriving DecidableEq, Repr

/-- The persistent state touched by the submit-answer route: the Attempt
collection, the Progress collection, and the requesting user's embedded
stats. -/
structure DB where
  attempts : List AttemptRec
  progresses : List ProgressRec
  userStats : UserStats
  deriving DecidableEq, Repr

/-- `Progress.findOne({ userId, topicId })`. -/
def findProgress (l : List ProgressRec) (userId topicId : String) :
    Option ProgressRec :=
  l.find? (fun p => p.userId == userId && p.topicId == topicId)

/-- `progress.save()`: replace the stored document with the mutated one (the
compound unique index on `(userId, topicId)` identifies it). -/
def saveProgressList (l : List ProgressRec) (p : ProgressRec) :
    List ProgressRec :=
  l.map (fun q => bif q.userId == p.userId && q.topicId == p.topicId then p else q)

/-- `Progress.create({... mastery: 0.2, attempts: 0, corrects: 0})` with the
schema defaults `lastReview: null`, `emaAlpha: 0.3`. -/
def freshProgress (userId topicId subjectName topicTitle : String) :
    ProgressRec :=
  { userId := userId, topicId := topicId, subjectName := subjectName,
    topicTitle := topicTitle, mastery := 1/5, attempts := 0, corrects := 0,
    lastReview := none, emaAlpha := 3/10 }

/-! ### MasteryEngine -/

/-- `newMastery = alpha * (isCorrect ? 1 : 0) + (1 - alpha) * progress.mastery`. -/
def updateMastery (priorMastery alpha : ℚ) (isCorrect : Bool) : ℚ :=
  alpha * (if isCorrect then 1 else 0) + (1 - alpha) * priorMastery

/-- The in-place mutation of the Progress document in the submit-answer
route: EMA mastery, `attempts += 1`, `corrects += isCorrect ? 1 : 0`,
`lastReview = new Date()`. -/
def applyAttemptToProgress (p : ProgressRec) (isCorrect : Bool) (now : ℚ) :
    ProgressRec :=
  { p with
    mastery := updateMastery p.mastery p.emaAlpha isCorrect,
    attempts := p.attempts + 1,
    corrects := p.corrects + (if isCorrect then 1 else 0),
    lastReview := some now }

/-! ### StreakTracker -/

/-- The streak branch of the route, on midnight-normalised day numbers:
`daysDiff == 1` increments, `daysDiff > 1` resets to 1, otherwise (0 or
negative) the streak is left unchanged; a null `lastStudyDate` starts the
streak at 1.  (JS quirk not modelled: `if (lastStudy)` would also treat the
number 0 — local midnight of 1970-01-01 — as absent; that instant is outside
the system's operating range and below the day-granularity abstraction.) -/
def updateStreakFields (lastStudyDay : Option ℤ) (today : ℤ)
    (currentStreak : Nat) : Nat :=
  match lastStudyDay with
  | none => 1
  | some last =>
    let daysDiff := today - last
    if daysDiff = 1 then currentStreak + 1
    else if daysDiff > 1 then 1
    else currentStreak

/-- The whole `user.stats` mutation of the route: totals, streak (computed on
`setHours(0,0,0,0)`-normalised dates, i.e. day floors), `longestStreak =
max(longestStreak, currentStreak)`, `lastStudyDate = new Date()`. -/
def updateUserStats (stats : UserStats) (isCorrect : Bool) (now : ℚ) :
    UserStats :=
  let newCurrent :=
    updateStreakFields (stats.lastStudyDate.map (fun t => ⌊t⌋)) ⌊now⌋
      stats.currentStreak
  { totalAttempts := stats.totalAttempts + 1,
    totalCorrect := stats.totalCorrect + (if isCorrect then 1 else 0),
    currentStreak := newCurrent,
    longestStreak := max stats.longestStreak newCurrent,
    lastStudyDate := some now }

/-! ### The submit-answer route -/

/-- Which storage calls of the route throw (StorageError). -/
structure FailSchedule where
  failAttemptCreate : Bool
  failProgressQuery : Bool
  failProgressCreate : Bool
  failProgressSave : Bool
  failUserQuery : Bool
  failUserSave : Bool
  deriving DecidableEq, Repr

/-- No storage call fails. -/
def noFail : FailSchedule :=
  ⟨false, false, false, false, false, false⟩

inductive SubmitResult where
  /-- 404 `Question not found`. -/
  | questionNotFound : SubmitResult
  /-- 500, produced by the route's catch block. -/
  | serverError : SubmitResult
  /-- 200 with `isCorrect`, `correctAnswer`, the saved progress fields and the
  saved user stats. -/
  | ok (isCorrect : Bool) (correctAnswer : String) (progress : ProgressRec)
      (stats : UserStats) : SubmitResult
  deriving DecidableEq, Repr

/-- Tail of the route after the Progress document (fresh or found) is in
hand: mutate + save progress, then load, mutate and save the user stats. -/
def finishSubmit (sched : FailSchedule) (db : DB) (p : ProgressRec)
    (isCorrect : Bool) (correctAnswer : String) (now : ℚ) :
    SubmitResult × DB :=
  let p' := applyAttemptToProgress p isCorrect now
  if sched.failProgressSave then (.serverError, db)
  else
    let db' := { db with progresses := saveProgressList db.progresses p' }
    if sched.failUserQuery then (.serverError, db')
    else
      let stats' := updateUserStats db'.userStats isCorrect now
      if sched.failUserSave then (.serverError, db')
      else (.ok isCorrect correctAnswer p' stats',
            { db' with userStats := stats' })

/-- `POST /api/progress/submit-answer`.  Returns the HTTP-level result and
the database after the request. -/
def submitAnswer (subjects : List Subject) (sched : FailSchedule) (db : DB)
    (userId topicId questionId userAnswer : String) (timeTaken : Option ℚ)
    (now : ℚ) : SubmitResult × DB :=
  match findTopic subjects topicId with
  | none => (.questionNotFound, db)
  | some (subj, top) =>
    match questionAnswer top questionId with
    | none => (.questionNotFound, db)
    | some ans =>
      if ans == "" then (.questionNotFound, db)
      else
        let isCorrect := decideCorrect userAnswer ans
        if sched.failAttemptCreate then (.serverError, db)
        else
          let att : AttemptRec :=
            { userId := userId, topicId := topicId, questionId := questionId,
              userAnswer := userAnswer, correctAnswer := ans,
              isCorrect := isCorrect, timeTaken := timeTaken,
              timestamp := now }
          let db1 := { db with attempts := db.attempts ++ [att] }
          if sched.failProgressQuery then (.serverError, db1)
          else
            match findProgress db1.progresses userId topicId with
            | some p => finishSubmit sched db1 p isCorrect ans now
            | none =>
              if sched.failProgressCreate then (.serverError, db1)
              else
                let fresh :=
                  freshProgress userId topicId subj.subject_name top.title
                let db2 := { db1 with progresses := db1.progresses ++ [fresh] }
                finishSubmit sched db2 fresh isCorrect ans now

/-! ### RecommendationRanker (GET /api/recommendations) -/

/-- The subjects→topics flattening of `getAllTopicIds`. -/
structure TopicInfo where
  topicId : String
  title : String
  subjectName : String
  deriving DecidableEq, Repr

def getAllTopicIds (subjects : List Subject) : List TopicInfo :=
  subjects.flatMap (fun s =>
    s.topics.map (fun t =>
      { topicId := t.topic_id, title := t.title,
        subjectName := s.subject_name }))

/-- `new Map(userProgress.map(p => [p.topicId, p]))`: on duplicate keys the
last entry wins. -/
def buildProgressMap (l : List ProgressRec) : String → Option ProgressRec :=
  fun tid => l.reverse.find? (fun p => p.topicId == tid)

/-- One entry pushed onto `scores` by the route's loop. -/
structure ScoredTopic where
  topicId : String
  title : String
  subjectName : String
  mastery : ℚ
  score : ℚ
  daysSinceLastReview : ℤ
  recentPerformance : Option ℚ
  deriving DecidableEq, Repr

/-- The body of the route's `for (const topic of allTopics)` loop.
`recentAttempts` is most-recent-first. -/
def scoreTopic (now : ℚ) (progressOf : String → Option ProgressRec)
    (recentAttempts : List AttemptRec) (t : TopicInfo) : ScoredTopic :=
  let progress := progressOf t.topicId
  let mastery : ℚ := match progress with | some p => p.mastery | none => 1/5
  let lastReview : Option ℚ :=
    match progress with | some p => p.lastReview | none => none
  let daysSince : ℚ := match lastReview with | some r => now - r | none => 999
  let recencyFactor : ℚ := 1 + (1/2) * min (daysSince / 30) 2
  let baseScore : ℚ := (1 - mastery) * recencyFactor
  let topicAttempts := recentAttempts.filter (fun a => a.topicId == t.topicId)
  let recentCorrect : Nat :=
    ((topicAttempts.take 5).filter (·.isCorrect)).length
  let recentTotal : Nat := min topicAttempts.length 5
  let strugglingBonus : ℚ :=
    if 0 < recentTotal ∧ (recentCorrect : ℚ) / (recentTotal : ℚ) < 2/5
    then 3/10 else 0
  { topicId := t.topicId, title := t.title, subjectName := t.subjectName,
    mastery := mastery,
    score := baseScore + strugglingBonus,
    daysSinceLastReview := round daysSince,
    recentPerformance :=
      if 0 < recentTotal
      then some ((recentCorrect : ℚ) / (recentTotal : ℚ) * 100) else none }

/-- The unsorted `scores` array of the route: every topic scored against the
user's progress map and the most recent (at most) 100 attempts,
most-recent-first. -/
def scoresOf (subjects : List Subject) (userProgress : List ProgressRec)
    (attemptsDesc : List AttemptRec) (now : ℚ) : List ScoredTopic :=
  (getAllTopicIds subjects).map
    (scoreTopic now (buildProgressMap userProgress) (attemptsDesc.take 100))

/-- The ordering of `scores.sort((a, b) => b.score - a.score)`: `a` may come
before `b` exactly when `a.score ≥ b.score`. -/
def scoreGE (a b : ScoredTopic) : Prop := b.score ≤ a.score

instance : DecidableRel scoreGE :=
  fun a b => inferInstanceAs (Decidable (b.score ≤ a.score))

instance : IsTotal ScoredTopic scoreGE :=
  ⟨fun a b => le_total b.score a.score⟩

instance : IsTrans ScoredTopic scoreGE :=
  ⟨fun _ _ _ h h' => le_trans h' h⟩

/-- `scores.sort((a, b) => b.score - a.score)`: JS `Array.prototype.sort` is
required to be stable, so it is the (unique) stable descending-by-score
sort; insertion sort with `scoreGE` realises exactly that function. -/
def sortByScoreDesc (l : List ScoredTopic) : List ScoredTopic :=
  l.insertionSort scoreGE

/-- `GET /api/recommendations`: score every topic, sort descending by score
(stably) and take the first `n` (`scores.slice(0, parseInt(n))`). -/
def recommend (subjects : List Subject) (userProgress : List ProgressRec)
    (attemptsDesc : List AttemptRec) (now : ℚ) (n : Nat) :
    List ScoredTopic :=
  (sortByScoreDesc (scoresOf subjects userProgress attemptsDesc now)).take n

/-! ### Concrete data used by witnesses and counterexamples -/

/-- A one-subject question bank: topic `T1` with questions answered `A` and
`B`. -/
def demoTopic : Topic := ⟨"T1", "Topic One", [⟨"A"⟩, ⟨"B"⟩]⟩

def demoSubjects : List Subject := [⟨"Math", [demoTopic]⟩]

/-- A question bank whose stored answer carries trailing whitespace. -/
def trailTopic : Topic := ⟨"T4", "Trailing", [⟨"a "⟩]⟩

def trailSubjects : List Subject := [⟨"Sci", [trailTopic]⟩]

def emptyStats : UserStats := ⟨0, 0, 0, 0, none⟩

def emptyDB : DB := ⟨[], [], emptyStats⟩

/-- An existing progress record for user `u` on topic `T1`. -/
def demoProgress : ProgressRec :=
  ⟨"u", "T1", "Math", "Topic One", 1/2, 3, 1, some (-2), 3/10⟩

def demoDB : DB := ⟨[], [demoProgress], emptyStats⟩

/-- The schedule on which only `progress.save()` throws. -/
def failProgressSaveOnly : FailSchedule :=
  ⟨false, false, false, true, false, false⟩

/-- A recent attempt on `tid` with outcome `c` (the fields other than
`topicId` and `isCorrect` are irrelevant to scoring). -/
def demoAtt (tid : String) (c : Bool) : AttemptRec :=
  ⟨"u", tid, "q", "x", "y", c, none, 0⟩

/-- A progress record on topic `TB` with mastery `1/5` reviewed one day
before time 0. -/
def demoProgB : ProgressRec :=
  ⟨"u", "TB", "S", "B", 1/5, 1, 0, some (-1), 3/10⟩

/-! ### Helper lemmas -/

@[simp]
lemma applyAttemptToProgress_userId (p : ProgressRec) (b : Bool) (now : ℚ) :
    (applyAttemptToProgress p b now).userId = p.userId := rfl

@[simp]
lemma applyAttemptToProgress_topicId (p : ProgressRec) (b : Bool) (now : ℚ) :
    (applyAttemptToProgress p b now).topicId = p.topicId := rfl

@[simp]
lemma applyAttemptToProgress_mastery (p : ProgressRec) (b : Bool) (now : ℚ) :
    (applyAttemptToProgress p b now).mastery =
      updateMastery p.mastery p.emaAlpha b := rfl

@[simp]
lemma applyAttemptToProgress_attempts (p : ProgressRec) (b : Bool) (now : ℚ) :
    (applyAttemptToProgress p b now).attempts = p.attempts + 1 := rfl

@[simp]
lemma applyAttemptToProgress_corrects (p : ProgressRec) (b : Bool) (now : ℚ) :
    (applyAttemptToProgress p b now).corrects =
      p.corrects + (if b then 1 else 0) := rfl

@[simp]
lemma applyAttemptToProgress_lastReview (p : ProgressRec) (b : Bool) (now : ℚ) :
    (applyAttemptToProgress p b now).lastReview = some now := rfl

@[simp]
lemma freshProgress_mastery (a b c d : String) :
    (freshProgress a b c d).mastery = 1/5 := rfl

@[simp]
lemma freshProgress_emaAlpha (a b c d : String) :
    (freshProgress a b c d).emaAlpha = 3/10 := rfl

/-- After `save`, looking the document up by its own key returns the saved
version exactly when a document with that key was already stored. -/
lemma findProgress_saveProgressList (l : List ProgressRec) (p : ProgressRec) :
    findProgress (saveProgressList l p) p.userId p.topicId =
      (findProgress l p.userId p.topicId).map (fun _ => p) := by
  induction l with
  | nil => rfl
  | cons q l ih =>
    have hsave : saveProgressList (q :: l) p =
        (bif q.userId == p.userId && q.topicId == p.topicId then p else q) ::
          saveProgressList l p := rfl
    cases h : (q.userId == p.userId && q.topicId == p.topicId) with
    | true =>
      unfold findProgress at ih ⊢
      have hp : (p.userId == p.userId && p.topicId == p.topicId) = true := by simp
      simp only [hsave, h, cond_true, List.find?_cons, hp]
      rfl
    | false =>
      unfold findProgress at ih ⊢
      simp only [hsave, h, cond_false, List.find?_cons]
      exact ih

/-- Appending a fresh document for a key that was absent makes it the one
found by that key. -/
lemma findProgress_append (l : List ProgressRec) (f : ProgressRec)
    (uid tid : String) (h : findProgress l uid tid = none) :
    findProgress (l ++ [f]) uid tid =
      if (f.userId == uid && f.topicId == tid) = true then some f else none := by
  unfold findProgress at h ⊢
  rw [List.find?_append, h, Option.none_or]
  cases hf : (f.userId == uid && f.topicId == tid) with
  | true =>
    simp only [List.find?_cons, hf]
    rfl
  | false =>
    simp only [List.find?_cons, hf]
    rfl

/-- Characterisation of the route's success path when a Progress document
for `(userId, topicId)` already exists and no storage call fails. -/
lemma submitAnswer_noFail_found (subjects : List Subject) (db : DB)
    (userId topicId questionId userAnswer : String) (timeTaken : Option ℚ)
    (now : ℚ) (subj : Subject) (top : Topic) (ans : String) (p : ProgressRec)
    (hft : findTopic subjects topicId = some (subj, top))
    (hqa : questionAnswer top questionId = some ans)
    (hne : (ans == "") = false)
    (hfp : findProgress db.progresses userId topicId = some p) :
    submitAnswer subjects noFail db userId topicId questionId userAnswer
        timeTaken now =
      (SubmitResult.ok (decideCorrect userAnswer ans) ans
        (applyAttemptToProgress p (decideCorrect userAnswer ans) now)
        (updateUserStats db.userStats (decideCorrect userAnswer ans) now),
       { attempts := db.attempts ++
           [⟨userId, topicId, questionId, userAnswer, ans,
             decideCorrect userAnswer ans, timeTaken, now⟩],
         progresses := saveProgressList db.progresses
           (applyAttemptToProgress p (decideCorrect userAnswer ans) now),
         userStats :=
           updateUserStats db.userStats (decideCorrect userAnswer ans) now }) := by
  unfold submitAnswer finishSubmit
  simp only [hft, hqa, hne, noFail, hfp, Bool.false_eq_true, if_false]

/-- Characterisation of the route's success path when no Progress document
for `(userId, topicId)` exists yet (lazy materialisation) and no storage
call fails. -/
lemma submitAnswer_noFail_fresh (subjects : List Subject) (db : DB)
    (userId topicId questionId userAnswer : String) (timeTaken : Option ℚ)
    (now : ℚ) (subj : Subject) (top : Topic) (ans : String)
    (hft : findTopic subjects topicId = some (subj, top))
    (hqa : questionAnswer top questionId = some ans)
    (hne : (ans == "") = false)
    (hfp : findProgress db.progresses userId topicId = none) :
    submitAnswer subjects noFail db userId topicId questionId userAnswer
        timeTaken now =
      (SubmitResult.ok (decideCorrect userAnswer ans) ans
        (applyAttemptToProgress
          (freshProgress userId topicId subj.subject_name top.title)
          (decideCorrect userAnswer ans) now)
        (updateUserStats db.userStats (decideCorrect userAnswer ans) now),
       { attempts := db.attempts ++
           [⟨userId, topicId, questionId, userAnswer, ans,
             decideCorrect userAnswer ans, timeTaken, now⟩],
         progresses := saveProgressList
           (db.progresses ++
             [freshProgress userId topicId subj.subject_name top.title])
           (applyAttemptToProgress
             (freshProgress userId topicId subj.subject_name top.title)
             (decideCorrect userAnswer ans) now),
         userStats :=
           updateUserStats db.userStats (decideCorrect userAnswer ans) now }) := by
  unfold submitAnswer finishSubmit
  simp only [hft, hqa, hne, noFail, hfp, Bool.false_eq_true, if_false]

/-- A found Progress document carries the key it was looked up by. -/
lemma findProgress_key (l : List ProgressRec) (uid tid : String)
    (p : ProgressRec) (h : findProgress l uid tid = some p) :
    p.userId = uid ∧ p.topicId = tid := by
  have hp := List.find?_some h
  simpa using hp

/-- The Progress document stored for `(userId, topicId)` after a successful
submission is the EMA/counter update of the prior document — the already
stored one, or the lazily materialised fresh one. -/
lemma submit_progress_after (subjects : List Subject) (db : DB)
    (userId topicId questionId userAnswer : String) (timeTaken : Option ℚ)
    (now : ℚ) (subj : Subject) (top : Topic) (ans : String)
    (hft : findTopic subjects topicId = some (subj, top))
    (hqa : questionAnswer top questionId = some ans)
    (hne : (ans == "") = false)
    (p0 : ProgressRec)
    (hp0 : findProgress db.progresses userId topicId = some p0
      ∨ (findProgress db.progresses userId topicId = none
         ∧ p0 = freshProgress userId topicId subj.subject_name top.title)) :
    findProgress (submitAnswer subjects noFail db userId topicId questionId
        userAnswer timeTaken now).2.progresses userId topicId
      = some (applyAttemptToProgress p0 (decideCorrect userAnswer ans) now) := by
  rcases hp0 with hfp | ⟨hfp, hp0⟩
  · obtain ⟨hu, ht⟩ := findProgress_key _ _ _ _ hfp
    rw [submitAnswer_noFail_found subjects db userId topicId questionId
      userAnswer timeTaken now subj top ans p0 hft hqa hne hfp]
    have hs := findProgress_saveProgressList db.progresses
      (applyAttemptToProgress p0 (decideCorrect userAnswer ans) now)
    rw [applyAttemptToProgress_userId, applyAttemptToProgress_topicId,
      hu, ht, hfp] at hs
    simpa using hs
  · subst hp0
    rw [submitAnswer_noFail_fresh subjects db userId topicId questionId
      userAnswer timeTaken now subj top ans hft hqa hne hfp]
    have hfu : (freshProgress userId topicId subj.subject_name
        top.title).userId = userId := rfl
    have hfti : (freshProgress userId topicId subj.subject_name
        top.title).topicId = topicId := rfl
    have hs := findProgress_saveProgressList
      (db.progresses ++ [freshProgress userId topicId subj.subject_name
        top.title])
      (applyAttemptToProgress
        (freshProgress userId topicId subj.subject_name top.title)
        (decideCorrect userAnswer ans) now)
    rw [applyAttemptToProgress_userId, applyAttemptToProgress_topicId,
      hfu, hfti] at hs
    have ha := findProgress_append db.progresses
      (freshProgress userId topicId subj.subject_name top.title)
      userId topicId hfp
    rw [hfu, hfti] at ha
    simp only [beq_self_eq_true, Bool.and_self] at ha
    rw [if_pos trivial] at ha
    rw [ha] at hs
    simpa using hs

/-! ### Claim theorems -/

/-- **C1.**  For every answer submission whose topic and question resolve
(under the no-failure schedule), the mastery stored in the Progress record
after the request equals `alpha * (isCorrect ? 1 : 0) + (1 - alpha) *
priorMastery`, where `alpha` is the record's `emaAlpha` and `priorMastery`
the stored mastery — `1/5` with `alpha = 3/10` for a freshly materialised
record, the EMA formula still being applied against that prior.  Moreover
for every prior in `[0,1]` and alpha in `[0,1]` the updated mastery stays in
`[0,1]`. -/
theorem submit_mastery_ema (subjects : List Subject) (db : DB)
    (userId topicId questionId userAnswer : String) (timeTaken : Option ℚ)
    (now : ℚ) (subj : Subject) (top : Topic) (ans : String)
    (hft : findTopic subjects topicId = some (subj, top))
    (hqa : questionAnswer top questionId = some ans)
    (hne : (ans == "") = false)
    (prior alpha : ℚ)
    (hprior : prior = match findProgress db.progresses userId topicId with
      | some p => p.mastery
      | none => 1/5)
    (halpha : alpha = match findProgress db.progresses userId topicId with
      | some p => p.emaAlpha
      | none => 3/10) :
    (findProgress (submitAnswer subjects noFail db userId topicId questionId
          userAnswer timeTaken now).2.progresses userId topicId).map
        (·.mastery)
      = some (alpha * (if decideCorrect userAnswer ans then 1 else 0)
              + (1 - alpha) * prior)
    ∧ (∀ m a : ℚ, ∀ b : Bool, 0 ≤ m → m ≤ 1 → 0 ≤ a → a ≤ 1 →
        0 ≤ updateMastery m a b ∧ updateMastery m a b ≤ 1) := by
  constructor
  · cases hfp : findProgress db.progresses userId topicId with
    | some p =>
      obtain ⟨hu, ht⟩ := findProgress_key _ _ _ _ hfp
      rw [submitAnswer_noFail_found subjects db userId topicId questionId
        userAnswer timeTaken now subj top ans p hft hqa hne hfp]
      have hs := findProgress_saveProgressList db.progresses
        (applyAttemptToProgress p (decideCorrect userAnswer ans) now)
      rw [applyAttemptToProgress_userId, applyAttemptToProgress_topicId,
        hu, ht, hfp] at hs
      rw [hprior, halpha, hfp]
      simp [hs, updateMastery]
    | none =>
      rw [submitAnswer_noFail_fresh subjects db userId topicId questionId
        userAnswer timeTaken now subj top ans hft hqa hne hfp]
      have hfu : (freshProgress userId topicId subj.subject_name
          top.title).userId = userId := rfl
      have hfti : (freshProgress userId topicId subj.subject_name
          top.title).topicId = topicId := rfl
      have hs := findProgress_saveProgressList
        (db.progresses ++ [freshProgress userId topicId subj.subject_name
          top.title])
        (applyAttemptToProgress
          (freshProgress userId topicId subj.subject_name top.title)
          (decideCorrect userAnswer ans) now)
      rw [applyAttemptToProgress_userId, applyAttemptToProgress_topicId,
        hfu, hfti] at hs
      have ha := findProgress_append db.progresses
        (freshProgress userId topicId subj.subject_name top.title)
        userId topicId hfp
      rw [hfu, hfti] at ha
      simp only [beq_self_eq_true, Bool.and_self] at ha
      rw [if_pos trivial] at ha
      rw [ha] at hs
      rw [hprior, halpha, hfp, hs]
      simp [updateMastery]
  · intro m a b h0 h1 ha0 ha1
    cases b <;> simp [updateMastery] <;> constructor <;> nlinarith

/-- Closed witness for `submit_mastery_ema`: a first-ever attempt on topic
`T1` of the demo bank, answered correctly, leaves mastery
`3/10 * 1 + 7/10 * (1/5)`. -/
theorem submit_mastery_ema_witness :
    findTopic demoSubjects "T1" = some (⟨"Math", [demoTopic]⟩, demoTopic)
    ∧ questionAnswer demoTopic "T1_Q1" = some "A"
    ∧ ((findProgress (submitAnswer demoSubjects noFail emptyDB "u" "T1"
          "T1_Q1" "a" none 0).2.progresses "u" "T1").map (·.mastery)
        = some ((3/10) * (if decideCorrect "a" "A" then 1 else 0)
                + (1 - 3/10) * (1/5))
      ∧ (∀ m a : ℚ, ∀ b : Bool, 0 ≤ m → m ≤ 1 → 0 ≤ a → a ≤ 1 →
          0 ≤ updateMastery m a b ∧ updateMastery m a b ≤ 1)) :=
  ⟨by decide, by decide,
    submit_mastery_ema demoSubjects emptyDB "u" "T1" "T1_Q1" "a" none 0
      ⟨"Math", [demoTopic]⟩ demoTopic "A" (by decide) (by decide) (by decide)
      (1/5) (3/10) rfl rfl⟩

/-- **C7.**  For all `mastery0 ∈ [0,1]` and `alpha ∈ (0,1]`, the EMA update
is monotone in the outcome: a correct answer never lowers mastery and an
incorrect answer never raises it. -/
theorem updateMastery_monotone (m a : ℚ) (h0 : 0 ≤ m) (h1 : m ≤ 1)
    (ha0 : 0 < a) (ha1 : a ≤ 1) :
    m ≤ updateMastery m a true ∧ updateMastery m a false ≤ m := by
  unfold updateMastery
  constructor <;> simp <;> nlinarith

/-- Closed witness for `updateMastery_monotone` at `m = 1/2`, `a = 3/10`. -/
theorem updateMastery_monotone_witness :
    (0:ℚ) ≤ 1/2 ∧ (1:ℚ)/2 ≤ 1 ∧ (0:ℚ) < 3/10 ∧ (3:ℚ)/10 ≤ 1
    ∧ ((1:ℚ)/2 ≤ updateMastery (1/2) (3/10) true
       ∧ updateMastery (1/2) (3/10) false ≤ 1/2) :=
  ⟨by norm_num, by norm_num, by norm_num, by norm_num,
    updateMastery_monotone (1/2) (3/10) (by norm_num) (by norm_num)
      (by norm_num) (by norm_num)⟩

/-- **C2.**  The streak policy at day granularity: a null `lastStudyDate`
starts the streak at 1; a same-day repeat leaves it unchanged; a
consecutive-day submission increments it; a gap of more than one day resets
it to 1 (not 0); `longestStreak` becomes the max of its old value and the
new `currentStreak`, and `lastStudyDate` is set to the submission timestamp.
On days `[D, D, D+1, D+3]` from streak 0 the `currentStreak` values are
`[1, 1, 2, 1]` with final `longestStreak` 2. -/
theorem streak_update_policy :
    (∀ (today : ℤ) (c : ℕ), updateStreakFields none today c = 1)
    ∧ (∀ (last today : ℤ) (c : ℕ), today - last = 0 →
        updateStreakFields (some last) today c = c)
    ∧ (∀ (last today : ℤ) (c : ℕ), today - last = 1 →
        updateStreakFields (some last) today c = c + 1)
    ∧ (∀ (last today : ℤ) (c : ℕ), 1 < today - last →
        updateStreakFields (some last) today c = 1)
    ∧ (∀ (stats : UserStats) (b : Bool) (now : ℚ),
        (updateUserStats stats b now).longestStreak
          = max stats.longestStreak (updateUserStats stats b now).currentStreak
        ∧ (updateUserStats stats b now).lastStudyDate = some now)
    ∧ (∀ D : ℤ,
        (updateUserStats ⟨0, 0, 0, 0, none⟩ true (D : ℚ)).currentStreak = 1
        ∧ (updateUserStats (updateUserStats ⟨0, 0, 0, 0, none⟩ true (D : ℚ))
            true (D : ℚ)).currentStreak = 1
        ∧ (updateUserStats (updateUserStats (updateUserStats ⟨0, 0, 0, 0, none⟩
            true (D : ℚ)) true (D : ℚ)) true ((D : ℚ) + 1)).currentStreak = 2
        ∧ (updateUserStats (updateUserStats (updateUserStats (updateUserStats
            ⟨0, 0, 0, 0, none⟩ true (D : ℚ)) true (D : ℚ)) true ((D : ℚ) + 1))
            true ((D : ℚ) + 3)).currentStreak = 1
        ∧ (updateUserStats (updateUserStats (updateUserStats (updateUserStats
            ⟨0, 0, 0, 0, none⟩ true (D : ℚ)) true (D : ℚ)) true ((D : ℚ) + 1))
            true ((D : ℚ) + 3)).longestStreak = 2) := by
  refine ⟨fun today c => rfl, ?_, ?_, ?_, fun stats b now => ⟨rfl, rfl⟩, ?_⟩
  · intro last today c h
    simp only [updateStreakFields, h]
    norm_num
  · intro last today c h
    simp only [updateStreakFields, h]
    norm_num
  · intro last today c h
    have h1 : ¬(today - last = 1) := by omega
    simp only [updateStreakFields, if_neg h1, if_pos h]
  · intro D
    have hD : ⌊(D : ℚ)⌋ = D := Int.floor_intCast D
    have hD1 : ⌊(D : ℚ) + 1⌋ = D + 1 := by
      rw [Int.floor_add_one, hD]
    have hD3 : ⌊(D : ℚ) + 3⌋ = D + 3 := by
      have : (D : ℚ) + 3 = ((D + 3 : ℤ) : ℚ) := by push_cast; ring
      rw [this, Int.floor_intCast]
    simp only [updateUserStats, updateStreakFields, Option.map_some,
      Option.map_none, hD, hD1, hD3]
    norm_num

/-- Closed witness for `streak_update_policy`: the four day-difference cases
at concrete day numbers. -/
theorem streak_update_policy_witness :
    updateStreakFields none 7 5 = 1
    ∧ updateStreakFields (some 5) 5 3 = 3
    ∧ updateStreakFields (some 5) 6 3 = 4
    ∧ updateStreakFields (some 5) 9 3 = 1
    ∧ (updateUserStats ⟨0, 0, 0, 0, none⟩ true ((3 : ℤ) : ℚ)).currentStreak = 1 :=
  ⟨streak_update_policy.1 7 5,
    streak_update_policy.2.1 5 5 3 (by decide),
    streak_update_policy.2.2.1 5 6 3 (by decide),
    streak_update_policy.2.2.2.1 5 9 3 (by decide),
    (streak_update_policy.2.2.2.2.2 3).1⟩

/-- **C6.**  A successful submission stores a Progress document whose
`attempts` is incremented by exactly 1, whose `corrects` is incremented by 1
iff the answer was correct, and whose `lastReview` is set; the update
preserves `corrects ≤ attempts`, never decreases either counter, and the
updated user stats satisfy `currentStreak ≤ longestStreak`. -/
theorem submit_counters (subjects : List Subject) (db : DB)
    (userId topicId questionId userAnswer : String) (timeTaken : Option ℚ)
    (now : ℚ) (subj : Subject) (top : Topic) (ans : String)
    (hft : findTopic subjects topicId = some (subj, top))
    (hqa : questionAnswer top questionId = some ans)
    (hne : (ans == "") = false)
    (p0 : ProgressRec)
    (hp0 : findProgress db.progresses userId topicId = some p0
      ∨ (findProgress db.progresses userId topicId = none
         ∧ p0 = freshProgress userId topicId subj.subject_name top.title)) :
    findProgress (submitAnswer subjects noFail db userId topicId questionId
        userAnswer timeTaken now).2.progresses userId topicId
      = some (applyAttemptToProgress p0 (decideCorrect userAnswer ans) now)
    ∧ (∀ (p : ProgressRec) (b : Bool) (n : ℚ),
        (applyAttemptToProgress p b n).attempts = p.attempts + 1
        ∧ (applyAttemptToProgress p b n).corrects
            = p.corrects + (if b then 1 else 0)
        ∧ (applyAttemptToProgress p b n).lastReview = some n
        ∧ (p.corrects ≤ p.attempts →
            (applyAttemptToProgress p b n).corrects
              ≤ (applyAttemptToProgress p b n).attempts)
        ∧ p.attempts ≤ (applyAttemptToProgress p b n).attempts
        ∧ p.corrects ≤ (applyAttemptToProgress p b n).corrects)
    ∧ (submitAnswer subjects noFail db userId topicId questionId userAnswer
        timeTaken now).2.userStats
      = updateUserStats db.userStats (decideCorrect userAnswer ans) now
    ∧ (∀ (stats : UserStats) (b : Bool) (n : ℚ),
        (updateUserStats stats b n).currentStreak
          ≤ (updateUserStats stats b n).longestStreak) := by
  refine ⟨submit_progress_after subjects db userId topicId questionId
      userAnswer timeTaken now subj top ans hft hqa hne p0 hp0,
    ?_, ?_, ?_⟩
  · intro p b n
    refine ⟨rfl, rfl, rfl, ?_, ?_, ?_⟩
    · intro h
      simp only [applyAttemptToProgress_attempts, applyAttemptToProgress_corrects]
      cases b <;> simp <;> omega
    · simp
    · cases b <;> simp
  · rcases hp0 with hfp | ⟨hfp, hp0⟩
    · rw [submitAnswer_noFail_found subjects db userId topicId questionId
        userAnswer timeTaken now subj top ans p0 hft hqa hne hfp]
    · subst hp0
      rw [submitAnswer_noFail_fresh subjects db userId topicId questionId
        userAnswer timeTaken now subj top ans hft hqa hne hfp]
  · intro stats b n
    exact le_max_right _ _

/-- Closed witness for `submit_counters`: submitting against the stored
record of `demoDB` (attempts 3, corrects 1). -/
theorem submit_counters_witness :
    findProgress (submitAnswer demoSubjects noFail demoDB "u" "T1" "T1_Q1"
        "a" none 0).2.progresses "u" "T1"
      = some (applyAttemptToProgress demoProgress (decideCorrect "a" "A") 0)
    ∧ (∀ (p : ProgressRec) (b : Bool) (n : ℚ),
        (applyAttemptToProgress p b n).attempts = p.attempts + 1
        ∧ (applyAttemptToProgress p b n).corrects
            = p.corrects + (if b then 1 else 0)
        ∧ (applyAttemptToProgress p b n).lastReview = some n
        ∧ (p.corrects ≤ p.attempts →
            (applyAttemptToProgress p b n).corrects
              ≤ (applyAttemptToProgress p b n).attempts)
        ∧ p.attempts ≤ (applyAttemptToProgress p b n).attempts
        ∧ p.corrects ≤ (applyAttemptToProgress p b n).corrects)
    ∧ (submitAnswer demoSubjects noFail demoDB "u" "T1" "T1_Q1" "a" none
        0).2.userStats
      = updateUserStats demoDB.userStats (decideCorrect "a" "A") 0
    ∧ (∀ (stats : UserStats) (b : Bool) (n : ℚ),
        (updateUserStats stats b n).currentStreak
          ≤ (updateUserStats stats b n).longestStreak) :=
  submit_counters demoSubjects demoDB "u" "T1" "T1_Q1" "a" none 0
    ⟨"Math", [demoTopic]⟩ demoTopic "A" (by decide) (by decide) (by decide)
    demoProgress (Or.inl rfl)

/-- The number of correct attempts in a window depends only on the
`isCorrect` projection of that window. -/
lemma filter_isCorrect_length (l : List AttemptRec) :
    (l.filter (·.isCorrect)).length
      = ((l.map (·.isCorrect)).filter id).length := by
  induction l with
  | nil => rfl
  | cons a l ih => cases hc : a.isCorrect <;> simp [hc, ih]

/-- In the stable descending sort, a strictly higher-scoring element is
placed strictly before a lower-scoring one. -/
lemma indexOf_sortByScoreDesc_lt (l : List ScoredTopic) (x y : ScoredTopic)
    (hx : x ∈ l) (hy : y ∈ l) (hxy : y.score < x.score) :
    (sortByScoreDesc l).indexOf x < (sortByScoreDesc l).indexOf y := by
  have hperm := List.perm_insertionSort scoreGE l
  have hx' : x ∈ sortByScoreDesc l := hperm.mem_iff.mpr hx
  have hy' : y ∈ sortByScoreDesc l := hperm.mem_iff.mpr hy
  have hsorted : (sortByScoreDesc l).Sorted scoreGE :=
    List.sorted_insertionSort scoreGE l
  have hxlen : (sortByScoreDesc l).indexOf x < (sortByScoreDesc l).length :=
    List.indexOf_lt_length.mpr hx'
  have hylen : (sortByScoreDesc l).indexOf y < (sortByScoreDesc l).length :=
    List.indexOf_lt_length.mpr hy'
  by_contra hcon
  push_neg at hcon
  rcases lt_or_eq_of_le hcon with hlt | heq
  · have hrel := hsorted.rel_get_of_lt
      (a := ⟨(sortByScoreDesc l).indexOf y, hylen⟩)
      (b := ⟨(sortByScoreDesc l).indexOf x, hxlen⟩) hlt
    rw [List.indexOf_get hylen, List.indexOf_get hxlen] at hrel
    exact absurd hrel (not_le.mpr hxy)
  · have : y = x := by
      have h1 := List.indexOf_get hylen
      have h2 := List.indexOf_get hxlen
      rw [← h1, ← h2]
      congr 1
      exact Fin.ext heq
    rw [this] at hxy
    exact lt_irrefl _ hxy

/-- **C3.**  Each topic's recommendation score is
`(1 - mastery) * (1 + 0.5 * min(daysSince/30, 2)) + strugglingBonus`, with
mastery `1/5` and sentinel `daysSince = 999` when there is no Progress
record or a null `lastReview`; the recency factor lies in `[1, 2]` for
non-negative `daysSince`; the bonus is `3/10` exactly when the most recent
at-most-5 attempts on the topic (taken from the most recent 100 overall)
are non-empty with correct rate strictly below `2/5`; a rate of exactly
`2/5` earns no bonus while `1/5` earns the bonus. -/
theorem recommendation_score_formula (now : ℚ)
    (progressOf : String → Option ProgressRec) (atts : List AttemptRec)
    (t : TopicInfo) (mastery daysSince bonus : ℚ)
    (hm : mastery = match progressOf t.topicId with
      | some p => p.mastery
      | none => 1/5)
    (hd : daysSince = match progressOf t.topicId with
      | some p => (match p.lastReview with | some r => now - r | none => 999)
      | none => 999)
    (hb : bonus =
      if 0 < min (atts.filter (fun a => a.topicId == t.topicId)).length 5
          ∧ ((((atts.filter (fun a => a.topicId == t.topicId)).take 5).filter
                (·.isCorrect)).length : ℚ)
              / ((min (atts.filter (fun a => a.topicId == t.topicId)).length
                  5 : ℕ) : ℚ)
            < 2/5
      then 3/10 else 0) :
    (scoreTopic now progressOf atts t).score
      = (1 - mastery) * (1 + (1/2) * min (daysSince / 30) 2) + bonus
    ∧ (0 ≤ daysSince →
        1 ≤ 1 + (1/2) * min (daysSince / 30) 2
        ∧ 1 + (1/2) * min (daysSince / 30) 2 ≤ 2)
    ∧ (∀ (subjects : List Subject) (up : List ProgressRec)
        (attemptsDesc : List AttemptRec),
        scoresOf subjects up attemptsDesc now
          = (getAllTopicIds subjects).map
              (scoreTopic now (buildProgressMap up) (attemptsDesc.take 100)))
    ∧ (scoreTopic 0 (fun _ => none)
        [demoAtt "T1" false, demoAtt "T1" false, demoAtt "T1" false,
         demoAtt "T1" true, demoAtt "T1" true] ⟨"T1", "x", "y"⟩).score = 8/5
    ∧ (scoreTopic 0 (fun _ => none)
        [demoAtt "T1" false, demoAtt "T1" false, demoAtt "T1" false,
         demoAtt "T1" false, demoAtt "T1" true] ⟨"T1", "x", "y"⟩).score
        = 8/5 + 3/10 := by
  refine ⟨?_, ?_, fun _ _ _ => rfl, ?_, ?_⟩
  · subst hm hd hb
    cases hp : progressOf t.topicId with
    | none => simp [scoreTopic, hp]
    | some p =>
      cases hr : p.lastReview with
      | none => simp [scoreTopic, hp, hr]
      | some r => simp [scoreTopic, hp, hr]
  · intro hpos
    have hmin0 : (0 : ℚ) ≤ min (daysSince / 30) 2 :=
      le_min (by positivity) (by norm_num)
    have hmin2 : min (daysSince / 30) 2 ≤ 2 := min_le_right _ _
    constructor <;> nlinarith
  · norm_num [scoreTopic, demoAtt]
  · norm_num [scoreTopic, demoAtt]

/-- Closed witness for `recommendation_score_formula`: the sentinel topic of
the last conjunct, evaluated through the theorem. -/
theorem recommendation_score_formula_witness :
    (scoreTopic 0 (fun _ => none) [] ⟨"T1", "x", "y"⟩).score
      = (1 - 1/5) * (1 + (1/2) * min ((999 : ℚ) / 30) 2) + 0
    ∧ ((0 : ℚ) ≤ 999 →
        1 ≤ 1 + (1/2) * min ((999 : ℚ) / 30) 2
        ∧ 1 + (1/2) * min ((999 : ℚ) / 30) 2 ≤ 2) :=
  ⟨(recommendation_score_formula 0 (fun _ => none) [] ⟨"T1", "x", "y"⟩
      (1/5) 999 0 rfl rfl (by norm_num)).1,
   (recommendation_score_formula 0 (fun _ => none) [] ⟨"T1", "x", "y"⟩
      (1/5) 999 0 rfl rfl (by norm_num)).2.1⟩

/-- **C8.**  Two topics with equal mastery `1/5` and the same recent-attempt
history, one never reviewed (sentinel `daysSince = 999`) and the other
reviewed one day ago: the never-reviewed one scores strictly higher and is
placed strictly earlier by the descending sort. -/
theorem neverReviewed_outranks (now : ℚ)
    (progressOf : String → Option ProgressRec) (atts : List AttemptRec)
    (t1 t2 : TopicInfo)
    (h1 : progressOf t1.topicId = none
      ∨ ∃ p, progressOf t1.topicId = some p ∧ p.mastery = 1/5
          ∧ p.lastReview = none)
    (h2 : ∃ p, progressOf t2.topicId = some p ∧ p.mastery = 1/5
        ∧ p.lastReview = some (now - 1))
    (hh : (atts.filter (fun a => a.topicId == t1.topicId)).map (·.isCorrect)
        = (atts.filter (fun a => a.topicId == t2.topicId)).map (·.isCorrect)) :
    (scoreTopic now progressOf atts t2).score
      < (scoreTopic now progressOf atts t1).score
    ∧ ∀ l : List ScoredTopic,
        scoreTopic now progressOf atts t1 ∈ l →
        scoreTopic now progressOf atts t2 ∈ l →
        (sortByScoreDesc l).indexOf (scoreTopic now progressOf atts t1)
          < (sortByScoreDesc l).indexOf (scoreTopic now progressOf atts t2) := by
  have hlen : (atts.filter (fun a => a.topicId == t1.topicId)).length
      = (atts.filter (fun a => a.topicId == t2.topicId)).length := by
    have h := congrArg List.length hh
    simpa using h
  have hcnt : (((atts.filter (fun a => a.topicId == t1.topicId)).take
        5).filter (·.isCorrect)).length
      = (((atts.filter (fun a => a.topicId == t2.topicId)).take 5).filter
          (·.isCorrect)).length := by
    rw [filter_isCorrect_length, filter_isCorrect_length,
      List.map_take, List.map_take, hh]
  have hmin1 : min ((1 : ℚ)/30) 2 = 1/30 := min_eq_left (by norm_num)
  have hmin999 : min ((999 : ℚ)/30) 2 = 2 := min_eq_right (by norm_num)
  have hnow : now - (now - 1) = 1 := by ring
  obtain ⟨p2, hp2, hm2, hr2⟩ := h2
  have hscore : (scoreTopic now progressOf atts t2).score
      < (scoreTopic now progressOf atts t1).score := by
    rcases h1 with hp1 | ⟨p1, hp1, hm1, hr1⟩ <;>
      simp only [scoreTopic, hp1, hp2, hm2, hr2] <;>
      try simp only [hm1, hr1]
    all_goals
      rw [hlen, hcnt, hnow, hmin1, hmin999]
      have hb : (0 : ℚ) ≤ (if 0 < min (atts.filter
          (fun a => a.topicId == t2.topicId)).length 5
          ∧ ((((atts.filter (fun a => a.topicId == t2.topicId)).take
                5).filter (·.isCorrect)).length : ℚ)
              / ((min (atts.filter (fun a => a.topicId == t2.topicId)).length
                  5 : ℕ) : ℚ) < 2/5
        then 3/10 else 0) := by positivity
    all_goals linarith
  exact ⟨hscore, fun l hx hy =>
    indexOf_sortByScoreDesc_lt l _ _ hx hy hscore⟩

/-- Closed witness for `neverReviewed_outranks`: topic `TA` never reviewed
versus topic `TB` reviewed one day before time 0, both mastery `1/5`. -/
theorem neverReviewed_outranks_witness :
    (scoreTopic 0 (buildProgressMap [demoProgB]) [] ⟨"TB", "B", "S"⟩).score
      < (scoreTopic 0 (buildProgressMap [demoProgB]) [] ⟨"TA", "A", "S"⟩).score
    ∧ (sortByScoreDesc
        [scoreTopic 0 (buildProgressMap [demoProgB]) [] ⟨"TB", "B", "S"⟩,
         scoreTopic 0 (buildProgressMap [demoProgB]) []
           ⟨"TA", "A", "S"⟩]).indexOf
        (scoreTopic 0 (buildProgressMap [demoProgB]) [] ⟨"TA", "A", "S"⟩)
      < (sortByScoreDesc
          [scoreTopic 0 (buildProgressMap [demoProgB]) [] ⟨"TB", "B", "S"⟩,
           scoreTopic 0 (buildProgressMap [demoProgB]) []
             ⟨"TA", "A", "S"⟩]).indexOf
          (scoreTopic 0 (buildProgressMap [demoProgB]) [] ⟨"TB", "B", "S"⟩) := by
  have h := neverReviewed_outranks 0 (buildProgressMap [demoProgB]) []
    ⟨"TA", "A", "S"⟩ ⟨"TB", "B", "S"⟩ (Or.inl rfl)
    ⟨demoProgB, rfl, rfl, by norm_num [demoProgB]⟩ rfl
  exact ⟨h.1, h.2 _ (by simp) (by simp)⟩

/-- Stability of one ordered insertion, phrased through score-level filters:
the inserted element lands in front of the equal-score block, and elements
of every other score keep their relative order. -/
lemma filter_orderedInsert_score (a : ScoredTopic) (m : List ScoredTopic)
    (s : ℚ) :
    (List.orderedInsert scoreGE a m).filter (fun x => decide (x.score = s))
      = if a.score = s
        then a :: m.filter (fun x => decide (x.score = s))
        else m.filter (fun x => decide (x.score = s)) := by
  induction m with
  | nil =>
    by_cases has : a.score = s <;> simp [List.orderedInsert, has]
  | cons b m ih =>
    by_cases hab : scoreGE a b
    · by_cases has : a.score = s <;> simp [List.orderedInsert, hab, has]
    · have hba : a.score < b.score := lt_of_not_le hab
      by_cases has : a.score = s
      · have hbs : ¬ b.score = s := by rw [← has]; exact ne_of_gt hba
        simp [List.orderedInsert, hab, has, hbs, ih]
      · rcases eq_or_ne b.score s with hbs | hbs <;>
          simp [List.orderedInsert, hab, has, hbs, ih]

/-- Stability of the descending sort: for each score value, the elements at
that score appear in the output exactly as they appear in the input. -/
lemma filter_sortByScoreDesc (l : List ScoredTopic) (s : ℚ) :
    (sortByScoreDesc l).filter (fun x => decide (x.score = s))
      = l.filter (fun x => decide (x.score = s)) := by
  induction l with
  | nil => rfl
  | cons a l ih =>
    show (List.orderedInsert scoreGE a (sortByScoreDesc l)).filter _ = _
    rw [filter_orderedInsert_score]
    by_cases has : a.score = s <;> simp [has, ih]

/-- **C9.**  The recommendation list has exactly `min n (#topics)` entries,
is sorted in non-increasing score order, and ties are broken by the topics'
original enumeration order (the sort is stable); the output is the `n`-entry
prefix of the stably sorted score list. -/
theorem recommend_output_shape (subjects : List Subject)
    (up : List ProgressRec) (atts : List AttemptRec) (now : ℚ) (n : ℕ) :
    (recommend subjects up atts now n).length
      = min n (getAllTopicIds subjects).length
    ∧ (recommend subjects up atts now n).Pairwise scoreGE
    ∧ (∀ s : ℚ,
        (sortByScoreDesc (scoresOf subjects up atts now)).filter
            (fun x => decide (x.score = s))
          = (scoresOf subjects up atts now).filter
              (fun x => decide (x.score = s)))
    ∧ recommend subjects up atts now n
        = (sortByScoreDesc (scoresOf subjects up atts now)).take n := by
  refine ⟨?_, ?_, fun s => filter_sortByScoreDesc _ s, rfl⟩
  · show ((sortByScoreDesc (scoresOf subjects up atts now)).take n).length = _
    rw [List.length_take, sortByScoreDesc, List.length_insertionSort,
      scoresOf, List.length_map]
  · have hs : (sortByScoreDesc (scoresOf subjects up atts now)).Pairwise
        scoreGE := List.sorted_insertionSort scoreGE _
    exact List.Pairwise.sublist (List.take_sublist n _) hs

/-- **C4, counterexample.**  The route does not trim: submitting `"A"`
against the stored answer `"a "` (same letter, trailing space) yields
`isCorrect = false`, while the claim asserts `true`. -/
theorem trimmed_comparison_counterexample :
    decideCorrect "A" "a " = false
    ∧ (submitAnswer trailSubjects noFail emptyDB "u" "T4" "T4_Q1" "A" none
        0).1
      = SubmitResult.ok false "a "
          (applyAttemptToProgress (freshProgress "u" "T4" "Sci" "Trailing")
            false 0)
          (updateUserStats emptyStats false 0) :=
  ⟨rfl, rfl⟩

/-- **C4, amended.**  Correctness is decided case-insensitively on the raw
(untrimmed) strings: `isCorrect` holds iff the two answers agree after
uppercasing, so `"A"` vs `"a"` is correct but `"A"` vs `"a "` is not. -/
theorem case_insensitive_untrimmed (u c : String) :
    (decideCorrect u c = true ↔ jsToUpper u = jsToUpper c)
    ∧ decideCorrect "A" "a" = true
    ∧ decideCorrect "a" "A" = true
    ∧ decideCorrect "A" "a " = false := by
  refine ⟨?_, rfl, rfl, rfl⟩
  simp [decideCorrect]

/-- **C10.**  If the topic id matches no topic, or the question id does not
encode an in-range question index via the `_Q<index>` suffix (including a
`NaN` parse), or the resolved question's stored answer is the empty string,
the route answers 404 `Question not found` under every failure schedule and
leaves the database untouched. -/
theorem unresolved_question_404 (subjects : List Subject)
    (sched : FailSchedule) (db : DB)
    (userId topicId questionId userAnswer : String) (timeTaken : Option ℚ)
    (now : ℚ)
    (h : match findTopic subjects topicId with
      | none => True
      | some st => questionAnswer st.2 questionId = none
          ∨ questionAnswer st.2 questionId = some "") :
    submitAnswer subjects sched db userId topicId questionId userAnswer
        timeTaken now = (.questionNotFound, db)
    ∧ (jsParseInt (((jsSplit questionId "_Q").get? 1).getD "") = none →
        ∀ top : Topic, questionAnswer top questionId = none)
    ∧ (∀ (top : Topic) (i : ℤ),
        jsParseInt (((jsSplit questionId "_Q").get? 1).getD "") = some i →
        (i - 1 < 0 ∨ top.questions.length ≤ (i - 1).toNat) →
        questionAnswer top questionId = none) := by
  refine ⟨?_, ?_, ?_⟩
  · cases hft : findTopic subjects topicId with
    | none => simp [submitAnswer, hft]
    | some st =>
      rw [hft] at h
      obtain ⟨subj, top⟩ := st
      rcases h with hqa | hqa
      · simp [submitAnswer, hft, hqa]
      · simp [submitAnswer, hft, hqa]
  · intro hp top
    unfold questionAnswer
    rw [hp]
  · intro top i hp hrange
    unfold questionAnswer
    rw [hp]
    show (if i - 1 < 0 then none
        else (top.questions.get? (i - 1).toNat).map (·.answer)) = none
    by_cases hneg : i - 1 < 0
    · rw [if_pos hneg]
    · rw [if_neg hneg]
      rcases hrange with hneg' | hlen
      · exact absurd hneg' hneg
      · rw [List.get?_eq_none.mpr hlen]
        rfl

/-- Closed witness for `unresolved_question_404`: an unknown topic id. -/
theorem unresolved_question_404_witness :
    submitAnswer demoSubjects noFail emptyDB "u" "NOPE" "T1_Q1" "a" none 0
      = (.questionNotFound, emptyDB)
    ∧ (jsParseInt (((jsSplit "T1_Q1" "_Q").get? 1).getD "") = none →
        ∀ top : Topic, questionAnswer top "T1_Q1" = none)
    ∧ (∀ (top : Topic) (i : ℤ),
        jsParseInt (((jsSplit "T1_Q1" "_Q").get? 1).getD "") = some i →
        (i - 1 < 0 ∨ top.questions.length ≤ (i - 1).toNat) →
        questionAnswer top "T1_Q1" = none) :=
  unresolved_question_404 demoSubjects noFail emptyDB "u" "NOPE" "T1_Q1" "a"
    none 0 trivial

/-- **C5, counterexample.**  A failure at `progress.save()` on the demo
database returns a 500 yet leaves the freshly created Attempt record
persisted, with Progress and UserStats unchanged — a visible partial
mutation. -/
theorem partial_mutation_counterexample :
    (submitAnswer demoSubjects failProgressSaveOnly demoDB "u" "T1" "T1_Q1"
        "a" none 0).1 = SubmitResult.serverError
    ∧ (submitAnswer demoSubjects failProgressSaveOnly demoDB "u" "T1" "T1_Q1"
        "a" none 0).2.attempts
      = demoDB.attempts ++ [⟨"u", "T1", "T1_Q1", "a", "A", true, none, 0⟩]
    ∧ (submitAnswer demoSubjects failProgressSaveOnly demoDB "u" "T1" "T1_Q1"
        "a" none 0).2.progresses = demoDB.progresses
    ∧ (submitAnswer demoSubjects failProgressSaveOnly demoDB "u" "T1" "T1_Q1"
        "a" none 0).2.userStats = demoDB.userStats :=
  ⟨rfl, rfl, rfl, rfl⟩

/-- **C5, amended.**  The writes of the route are sequential, not
transactional: a 404 performs no mutation, a failure at `Attempt.create`
performs no mutation, and a failure at `progress.save()` (with a stored
Progress record) leaves exactly the Attempt record persisted — the writes
completed before the failing step stay visible. -/
theorem submit_failure_keeps_prior_writes :
    (∀ (subjects : List Subject) (sched : FailSchedule) (db : DB)
        (u tid qid ua : String) (tt : Option ℚ) (now : ℚ),
        (submitAnswer subjects sched db u tid qid ua tt now).1
            = SubmitResult.questionNotFound →
        (submitAnswer subjects sched db u tid qid ua tt now).2 = db)
    ∧ (∀ (subjects : List Subject) (sched : FailSchedule) (db : DB)
        (u tid qid ua : String) (tt : Option ℚ) (now : ℚ),
        sched.failAttemptCreate = true →
        (submitAnswer subjects sched db u tid qid ua tt now).2 = db)
    ∧ (∀ (subjects : List Subject) (db : DB) (u tid qid ua : String)
        (tt : Option ℚ) (now : ℚ) (subj : Subject) (top : Topic)
        (ans : String) (p : ProgressRec),
        findTopic subjects tid = some (subj, top) →
        questionAnswer top qid = some ans → (ans == "") = false →
        findProgress db.progresses u tid = some p →
        (submitAnswer subjects failProgressSaveOnly db u tid qid ua tt
            now).1 = SubmitResult.serverError
        ∧ (submitAnswer subjects failProgressSaveOnly db u tid qid ua tt
            now).2
          = { db with attempts := db.attempts ++
              [⟨u, tid, qid, ua, ans, decideCorrect ua ans, tt, now⟩] }) := by
  refine ⟨?_, ?_, ?_⟩
  · intro subjects sched db u tid qid ua tt now
    simp only [submitAnswer, finishSubmit]
    repeat' split
    all_goals intro h
    all_goals simp_all
  · intro subjects sched db u tid qid ua tt now hac
    simp only [submitAnswer, finishSubmit, hac]
    repeat' split
    all_goals first
      | rfl
      | (exfalso; simp_all)
  · intro subjects db u tid qid ua tt now subj top ans p hft hqa hne hfp
    constructor
    · simp only [submitAnswer, finishSubmit, failProgressSaveOnly, hft, hqa,
        hne, hfp, Bool.false_eq_true, if_false]
      rw [if_pos trivial]
    · simp only [submitAnswer, finishSubmit, failProgressSaveOnly, hft, hqa,
        hne, hfp, Bool.false_eq_true, if_false]
      rw [if_pos trivial]

/-- Closed witness for `submit_failure_keeps_prior_writes`: its three cases at
concrete inputs. -/
theorem submit_failure_keeps_prior_writes_witness :
    (submitAnswer demoSubjects noFail emptyDB "u" "NOPE" "Q" "a" none 0).2
      = emptyDB
    ∧ (submitAnswer demoSubjects ⟨true, false, false, false, false, false⟩
        demoDB "u" "T1" "T1_Q1" "a" none 0).2 = demoDB
    ∧ ((submitAnswer demoSubjects failProgressSaveOnly demoDB "u" "T1"
          "T1_Q1" "a" none 0).1 = SubmitResult.serverError
       ∧ (submitAnswer demoSubjects failProgressSaveOnly demoDB "u" "T1"
            "T1_Q1" "a" none 0).2
         = { demoDB with attempts := demoDB.attempts ++
             [⟨"u", "T1", "T1_Q1", "a", "A", decideCorrect "a" "A", none,
               0⟩] }) :=
  ⟨submit_failure_keeps_prior_writes.1 demoSubjects noFail emptyDB "u" "NOPE"
      "Q" "a" none 0 rfl,
   submit_failure_keeps_prior_writes.2.1 demoSubjects
      ⟨true, false, false, false, false, false⟩ demoDB "u" "T1" "T1_Q1" "a"
      none 0 rfl,
   submit_failure_keeps_prior_writes.2.2 demoSubjects demoDB "u" "T1" "T1_Q1"
      "a" none 0 ⟨"Math", [demoTopic]⟩ demoTopic "A" demoProgress
      (by decide) (by decide) (by decide) rfl⟩

end ASP
